import Mathlib

/-!
Verification of the BPA (Balanced Pairwise Affinities) transform from
`src/bpa/balanced_pairwise_affinities.py`, shallowly embedded over the reals.

Tensors are embedded as functions out of `Fin` types: an unbatched feature
matrix of shape `[N, D]` is `Fin n → Fin d → ℝ`, a batched one of shape
`[B, N, D]` is `Fin b → Fin n → Fin d → ℝ`.  The source method handles both
ranks through broadcasting and explicit `dim()` branching; here each rank gets
its own definition mirroring the corresponding branch ("B"-suffixed names are
the batched variants).  Machine floats are idealized as exact reals; Lean's
convention `x / 0 = 0` stands in for the float behaviour at degenerate inputs.
-/

namespace BPAVerify

variable {α : Type*} {b m p n d : ℕ}

/-- The class attribute `BPA.supported_distances`. -/
def supported_distances : List String := ["cosine", "euclidean"]

/-- Python's `str.lower` as invoked by `distance_metric.lower()` (ASCII
lowercasing, which is all the supported metric names exercise), written
structurally over the character list so that concrete instances compute. -/
def lower (s : String) : String := ⟨s.data.map Char.toLower⟩

/-- The configuration fields an instance of `BPA` carries after `__init__`:
`distance_metric` (stored lowercased), `ot_reg`, `sinkhorn_iterations`,
`sigmoid`, `mask_diag`, `max_scale` and the constant `diagonal_val`. -/
structure BPA where
  distance_metric : String
  ot_reg : ℝ
  sinkhorn_iterations : ℤ
  sigmoid : Bool
  mask_diag : Bool
  max_scale : Bool
  diagonal_val : ℝ

/-- Constructor `BPA.__init__`: asserts `distance_metric.lower() in BPA.supported_distances
and sinkhorn_iterations > 0` (an `AssertionError` if the assert fails), then
stores the lowercased metric, the remaining arguments unchanged, and
`diagonal_val = 1e3`.  Note the assert never looks at `ot_reg`. -/
def BPA.init (distance_metric : String) (ot_reg : ℝ) (sinkhorn_iterations : ℤ)
    (sigmoid : Bool) (mask_diag : Bool) (max_scale : Bool) : Except String BPA :=
  if lower distance_metric ∈ supported_distances ∧ 0 < sinkhorn_iterations then
    Except.ok ⟨lower distance_metric, ot_reg, sinkhorn_iterations,
               sigmoid, mask_diag, max_scale, 1000⟩
  else
    Except.error "AssertionError"

/-- Method `BPA.mask_diagonal` on a 2-D tensor (`M.dim() <= 2` branch).  When
`self.mask_diag` holds it runs `M.fill_diagonal_(value)`, whose semantics
(per the underlying library) is to set entry `(i, i)` for every
`i < min(rows, cols)`; it raises no error on a non-square 2-D input.
When `self.mask_diag` is false the method returns `M` untouched. -/
def BPA.mask_diagonal (cfg : BPA) (M : Fin m → Fin p → α) (value : α) :
    Fin m → Fin p → α :=
  if cfg.mask_diag then (fun i j => if (i : ℕ) = (j : ℕ) then value else M i j) else M

/-- Method `BPA.mask_diagonal` on a batched tensor (`M.dim() > 2` branch) restricted to
the square shapes actually reached from `forward`: the boolean mask
`torch.eye(M.shape[1]).repeat(M.shape[0], 1, 1).bool()` selects exactly the
per-batch diagonal cells, which are assigned `value`. -/
def BPA.mask_diagonalB (cfg : BPA) (M : Fin b → Fin m → Fin m → α) (value : α) :
    Fin b → Fin m → Fin m → α :=
  if cfg.mask_diag then
    (fun k i j => if (i : ℕ) = (j : ℕ) then value else M k i j)
  else M

/-- Method `BPA.mask_diagonal` on a batched tensor of general trailing shape
`[b, m, p]`.  The boolean mask built from `torch.eye(M.shape[1])` has shape
`[b, m, m]`; the masked assignment `M[mask] = value` is accepted by the
underlying library only when the mask's shape matches `M`'s, i.e. when
`p = m`; otherwise the call raises (modelled as `Except.error`).  When
`self.mask_diag` is false nothing is checked and `M` is returned unchanged. -/
def BPA.mask_diagonalBE (cfg : BPA) (M : Fin b → Fin m → Fin p → α) (value : α) :
    Except String (Fin b → Fin m → Fin p → α) :=
  if cfg.mask_diag then
    if p = m then
      Except.ok (fun k i j => if (i : ℕ) = (j : ℕ) then value else M k i j)
    else
      Except.error "RuntimeError: mask shape mismatch"
  else Except.ok M

/-- Embedding of `torch.sigmoid`, the elementwise logistic function. -/
noncomputable def torch.sigmoid (z : ℝ) : ℝ := 1 / (1 + Real.exp (-z))

/-- Embedding of `torch.cdist(x, y, p=2)` on 2-D inputs: the matrix of pairwise L2
distances between the rows of `x` and the rows of `y`. -/
noncomputable def torch.cdist (x : Fin n → Fin d → ℝ) (y : Fin m → Fin d → ℝ) :
    Fin n → Fin m → ℝ :=
  fun i j => Real.sqrt (∑ k, (x i k - y j k) ^ 2)

/-- Embedding of `torch.cdist(x, y, p=2)` on batched 3-D inputs: applied per batch slice. -/
noncomputable def torch.cdistB (x : Fin b → Fin n → Fin d → ℝ)
    (y : Fin b → Fin m → Fin d → ℝ) : Fin b → Fin n → Fin m → ℝ :=
  fun k => torch.cdist (x k) (y k)

/-- Embedding of `F.normalize(x, dim=-1, p=2)`: every row is divided by its L2 norm
(the library's `eps` clamp idealizes to exact division; a zero row maps to
the zero row, matching Lean's `x / 0 = 0`). -/
noncomputable def F.normalize (x : Fin n → Fin d → ℝ) : Fin n → Fin d → ℝ :=
  fun i k => x i k / Real.sqrt (∑ l, x i l ^ 2)

/-- Embedding of `F.normalize(x, dim=-1, p=2)` on a batched 3-D input. -/
noncomputable def F.normalizeB (x : Fin b → Fin n → Fin d → ℝ) :
    Fin b → Fin n → Fin d → ℝ :=
  fun k => F.normalize (x k)

/-- Embedding of `t.max()` for a 2-D tensor: the greatest entry of the whole matrix
(0 on an empty shape, where the library call would error out). -/
noncomputable def matMax : {m p : ℕ} → (Fin m → Fin p → ℝ) → ℝ
  | m' + 1, p' + 1, M =>
      (Finset.univ ×ˢ Finset.univ).sup'
        (Finset.univ_nonempty.product Finset.univ_nonempty)
        (fun q : Fin (m' + 1) × Fin (p' + 1) => M q.1 q.2)
  | 0, _, _ => 0
  | _ + 1, 0, _ => 0

/-- Embedding of `t.max()` for a 3-D tensor: the greatest entry over the whole tensor,
batch axis included (0 on an empty shape, where the library call errors). -/
noncomputable def tensMax : {b m p : ℕ} → (Fin b → Fin m → Fin p → ℝ) → ℝ
  | b' + 1, m' + 1, p' + 1, M =>
      (Finset.univ ×ˢ Finset.univ ×ˢ Finset.univ).sup'
        (Finset.univ_nonempty.product
          (Finset.univ_nonempty.product Finset.univ_nonempty))
        (fun q : Fin (b' + 1) × Fin (m' + 1) × Fin (p' + 1) => M q.1 q.2.1 q.2.2)
  | 0, _, _, _ => 0
  | _ + 1, 0, _, _ => 0
  | _ + 1, _ + 1, 0, _ => 0

/-- Method `BPA.compute_cost_matrix` on an unbatched `[N, D]` input.  For
`euclidean`: `torch.cdist(x, x, p=2)` divided by its single greatest entry.
For `cosine`: `1 - x_norm @ x_norm.T` with rows normalized to unit L2 norm.
Any other stored metric never occurs after `__init__` (the method body would
leave `pairwise_dist` unbound); the embedding returns the zero matrix there. -/
noncomputable def BPA.compute_cost_matrix (cfg : BPA) (x : Fin n → Fin d → ℝ) :
    Fin n → Fin n → ℝ :=
  if cfg.distance_metric = "euclidean" then
    fun i j => torch.cdist x x i j / matMax (torch.cdist x x)
  else if cfg.distance_metric = "cosine" then
    fun i j => 1 - ∑ k, F.normalize x i k * F.normalize x j k
  else fun _ _ => 0

/-- Method `BPA.compute_cost_matrix` on a batched `[B, N, D]` input.  The euclidean
branch divides by `pairwise_dist.max()`, the single greatest entry across the
whole batch (not a per-slice maximum); the cosine branch acts per slice. -/
noncomputable def BPA.compute_cost_matrixB (cfg : BPA)
    (x : Fin b → Fin n → Fin d → ℝ) : Fin b → Fin n → Fin n → ℝ :=
  if cfg.distance_metric = "euclidean" then
    fun k i j => torch.cdistB x x k i j / tensMax (torch.cdistB x x)
  else if cfg.distance_metric = "cosine" then
    fun k i j => 1 - ∑ l, F.normalizeB x k i l * F.normalizeB x k j l
  else fun _ _ _ => 0

/-- Modelled from the spec: the stable log-sum-exp reduction used by the
missing solver module (over exact reals the stabilized form equals the plain
`log` of the sum of exponentials). -/
noncomputable def logsumexp (f : Fin n → ℝ) : ℝ := Real.log (∑ j, Real.exp (f j))

/-- Modelled from the spec: the dual potentials of `ot.log_sinkhorn` (the
module `bpa/ot.py` is imported but absent from src/).  Following spec section
4.3: `log_mu = log_nu = -log N`, `u = v = 0`, and each of the `iterations`
rounds updates `u` from the current `v` and then `v` from the fresh `u`. -/
noncomputable def sinkhorn_potentials (C : Fin n → Fin n → ℝ) (reg : ℝ) :
    ℕ → (Fin n → ℝ) × (Fin n → ℝ)
  | 0 => (fun _ => 0, fun _ => 0)
  | t + 1 =>
      let uv := sinkhorn_potentials C reg t
      let log_mu : ℝ := -Real.log n
      let u : Fin n → ℝ := fun i => log_mu - logsumexp (fun j => (-C i j + uv.2 j) / reg)
      let v : Fin n → ℝ := fun j => log_mu - logsumexp (fun i => (-C i j + u i) / reg)
      (u, v)

/-- Modelled from the spec: `ot.log_sinkhorn(C, reg, num_iters)` (source file
absent from src/), returning the log-domain plan
`(-C[i,j] + u[i] + v[j]) / reg` after `num_iters` potential updates. -/
noncomputable def log_sinkhorn (C : Fin n → Fin n → ℝ) (reg : ℝ) (num_iters : ℕ) :
    Fin n → Fin n → ℝ :=
  let uv := sinkhorn_potentials C reg num_iters
  fun i j => (-C i j + uv.1 i + uv.2 j) / reg

/-- Modelled from the spec: the batched solver applies the same formulas
independently per batch slice (spec section 4.3, batch-independence). -/
noncomputable def log_sinkhornB (C : Fin b → Fin n → Fin n → ℝ) (reg : ℝ)
    (num_iters : ℕ) : Fin b → Fin n → Fin n → ℝ :=
  fun k => log_sinkhorn (C k) reg num_iters

/-- The masked cost matrix of `BPA.forward`:
`C = self.mask_diagonal(self.compute_cost_matrix(x), value=self.diagonal_val)`. -/
noncomputable def BPA.masked_cost (cfg : BPA) (x : Fin n → Fin d → ℝ) :
    Fin n → Fin n → ℝ :=
  cfg.mask_diagonal (cfg.compute_cost_matrix x) cfg.diagonal_val

/-- Batched masked cost matrix of `BPA.forward`. -/
noncomputable def BPA.masked_costB (cfg : BPA) (x : Fin b → Fin n → Fin d → ℝ) :
    Fin b → Fin n → Fin n → ℝ :=
  cfg.mask_diagonalB (cfg.compute_cost_matrixB x) cfg.diagonal_val

/-- The log-domain plan of `BPA.forward`:
`x_bpa = ot.log_sinkhorn(C, reg=self.ot_reg, num_iters=self.sinkhorn_iterations)`. -/
noncomputable def BPA.log_plan (cfg : BPA) (x : Fin n → Fin d → ℝ) :
    Fin n → Fin n → ℝ :=
  log_sinkhorn (cfg.masked_cost x) cfg.ot_reg cfg.sinkhorn_iterations.toNat

/-- Batched log-domain plan of `BPA.forward`. -/
noncomputable def BPA.log_planB (cfg : BPA) (x : Fin b → Fin n → Fin d → ℝ) :
    Fin b → Fin n → Fin n → ℝ :=
  log_sinkhornB (cfg.masked_costB x) cfg.ot_reg cfg.sinkhorn_iterations.toNat

/-- Recovery step of `BPA.forward`: `torch.sigmoid(x_bpa)` when
`self.sigmoid`, else `torch.exp(x_bpa)`. -/
noncomputable def BPA.plan (cfg : BPA) (x : Fin n → Fin d → ℝ) :
    Fin n → Fin n → ℝ :=
  if cfg.sigmoid then fun i j => torch.sigmoid (cfg.log_plan x i j)
  else fun i j => Real.exp (cfg.log_plan x i j)

/-- Batched recovery step of `BPA.forward`. -/
noncomputable def BPA.planB (cfg : BPA) (x : Fin b → Fin n → Fin d → ℝ) :
    Fin b → Fin n → Fin n → ℝ :=
  if cfg.sigmoid then fun k i j => torch.sigmoid (cfg.log_planB x k i j)
  else fun k i j => Real.exp (cfg.log_planB x k i j)

/-- Range normalization of `BPA.forward` on an unbatched input: when
`self.max_scale`, `z_max = x_bpa.max().item()` (the single global maximum of
the 2-D tensor) and every entry is divided by it. -/
noncomputable def BPA.scaled (cfg : BPA) (x : Fin n → Fin d → ℝ) :
    Fin n → Fin n → ℝ :=
  if cfg.max_scale then
    let z_max := matMax (cfg.plan x)
    fun i j => cfg.plan x i j / z_max
  else cfg.plan x

/-- Range normalization of `BPA.forward` on a batched input: when
`self.max_scale`, `z_max = x_bpa.amax(dim=(1, 2), keepdim=True)` is the
per-batch-element maximum and the division broadcasts per slice. -/
noncomputable def BPA.scaledB (cfg : BPA) (x : Fin b → Fin n → Fin d → ℝ) :
    Fin b → Fin n → Fin n → ℝ :=
  if cfg.max_scale then
    fun k => (fun i j => cfg.planB x k i j / matMax (cfg.planB x k))
  else cfg.planB x

/-- Method `BPA.forward` on an unbatched `[N, D]` input: masked cost, self-OT,
recovery, optional range normalization, and the final
`self.mask_diagonal(x_bpa, value=1)`. -/
noncomputable def BPA.forward (cfg : BPA) (x : Fin n → Fin d → ℝ) :
    Fin n → Fin n → ℝ :=
  cfg.mask_diagonal (cfg.scaled x) (1 : ℝ)

/-- Method `BPA.forward` on a batched `[B, N, D]` input. -/
noncomputable def BPA.forwardB (cfg : BPA) (x : Fin b → Fin n → Fin d → ℝ) :
    Fin b → Fin n → Fin n → ℝ :=
  cfg.mask_diagonalB (cfg.scaledB x) (1 : ℝ)

/-!
Heap model for the aliasing behaviour of `forward`.  A 2-D tensor object holds
its shape and an entry table; a heap is a list of such objects and a tensor
reference is an index into it.  `torch.cdist`, `F.normalize`, matrix products,
`torch.exp`, `torch.sigmoid` and elementwise division all allocate fresh
tensors, while `mask_diagonal`'s `fill_diagonal_` / masked assignment writes
through the reference it is handed.  `forwardS` / `forwardSB` replay `forward`
over this heap so that the claim "the caller's input is never mutated" is a
statement about heap cells rather than vacuously true by purity.
-/

/-- A 2-D tensor object: shape plus entries (0 outside the shape). -/
structure DTensor where
  rows : ℕ
  cols : ℕ
  entry : ℕ → ℕ → ℝ

/-- The all-zero empty 2-D tensor, used as the out-of-range default. -/
def DTensor.zero : DTensor := ⟨0, 0, fun _ _ => 0⟩

/-- View a 2-D tensor object as a function matrix of its recorded shape. -/
def DTensor.fn (t : DTensor) : Fin t.rows → Fin t.cols → ℝ :=
  fun i j => t.entry i j

/-- Package a function matrix as a 2-D tensor object. -/
noncomputable def DTensor.ofFun (f : Fin n → Fin d → ℝ) : DTensor :=
  ⟨n, d, fun i j => if h : i < n ∧ j < d then f ⟨i, h.1⟩ ⟨j, h.2⟩ else 0⟩

/-- A 3-D tensor object: shape plus entries (0 outside the shape). -/
structure DTensor3 where
  batch : ℕ
  rows : ℕ
  cols : ℕ
  entry : ℕ → ℕ → ℕ → ℝ

/-- The all-zero empty 3-D tensor, used as the out-of-range default. -/
def DTensor3.zero : DTensor3 := ⟨0, 0, 0, fun _ _ _ => 0⟩

/-- View a 3-D tensor object as a function tensor of its recorded shape. -/
def DTensor3.fn (t : DTensor3) : Fin t.batch → Fin t.rows → Fin t.cols → ℝ :=
  fun k i j => t.entry k i j

/-- Package a function tensor as a 3-D tensor object. -/
noncomputable def DTensor3.ofFun (f : Fin b → Fin n → Fin d → ℝ) : DTensor3 :=
  ⟨b, n, d, fun k i j =>
    if h : k < b ∧ i < n ∧ j < d then f ⟨k, h.1⟩ ⟨i, h.2.1⟩ ⟨j, h.2.2⟩ else 0⟩

/-- Allocate a fresh tensor object on the heap, returning its reference. -/
def salloc (s : List α) (t : α) : List α × ℕ := (s ++ [t], s.length)

/-- Overwrite the heap cell behind a reference (an in-place tensor update). -/
def swrite (s : List α) (r : ℕ) (t : α) : List α := s.set r t

/-- Method `BPA.forward` replayed over the heap, unbatched input.  The cost matrix is
freshly allocated by `compute_cost_matrix`; the pre-solve `mask_diagonal`
mutates that allocation in place; the solver output, the recovery step and the
optional rescale each allocate fresh tensors; the final `mask_diagonal`
mutates the latest allocation in place and its reference is returned. -/
noncomputable def BPA.forwardS (cfg : BPA) (s : List DTensor) (xr : ℕ) :
    List DTensor × ℕ :=
  let x := (s.getD xr DTensor.zero).fn
  let C0 := cfg.compute_cost_matrix x
  let a1 := salloc s (DTensor.ofFun C0)
  let C1 := cfg.mask_diagonal C0 cfg.diagonal_val
  let s2 := swrite a1.1 a1.2 (DTensor.ofFun C1)
  let P := log_sinkhorn C1 cfg.ot_reg cfg.sinkhorn_iterations.toNat
  let a3 := salloc s2 (DTensor.ofFun P)
  let E := if cfg.sigmoid then (fun i j => torch.sigmoid (P i j))
           else (fun i j => Real.exp (P i j))
  let a4 := salloc a3.1 (DTensor.ofFun E)
  let step5 :=
    if cfg.max_scale then
      let z_max := matMax E
      let Esc := fun i j => E i j / z_max
      let a5 := salloc a4.1 (DTensor.ofFun Esc)
      (a5.1, a5.2, Esc)
    else (a4.1, a4.2, E)
  let out := cfg.mask_diagonal step5.2.2 (1 : ℝ)
  let s6 := swrite step5.1 step5.2.1 (DTensor.ofFun out)
  (s6, step5.2.1)

/-- Method `BPA.forward` replayed over the heap, batched input. -/
noncomputable def BPA.forwardSB (cfg : BPA) (s : List DTensor3) (xr : ℕ) :
    List DTensor3 × ℕ :=
  let x := (s.getD xr DTensor3.zero).fn
  let C0 := cfg.compute_cost_matrixB x
  let a1 := salloc s (DTensor3.ofFun C0)
  let C1 := cfg.mask_diagonalB C0 cfg.diagonal_val
  let s2 := swrite a1.1 a1.2 (DTensor3.ofFun C1)
  let P := log_sinkhornB C1 cfg.ot_reg cfg.sinkhorn_iterations.toNat
  let a3 := salloc s2 (DTensor3.ofFun P)
  let E := if cfg.sigmoid then (fun k i j => torch.sigmoid (P k i j))
           else (fun k i j => Real.exp (P k i j))
  let a4 := salloc a3.1 (DTensor3.ofFun E)
  let step5 :=
    if cfg.max_scale then
      let Esc := fun k => (fun i j => E k i j / matMax (E k))
      let a5 := salloc a4.1 (DTensor3.ofFun Esc)
      (a5.1, a5.2, Esc)
    else (a4.1, a4.2, E)
  let out := cfg.mask_diagonalB step5.2.2 (1 : ℝ)
  let s6 := swrite step5.1 step5.2.1 (DTensor3.ofFun out)
  (s6, step5.2.1)

/-- A concrete valid configuration with `mask_diag = true` (whole-number
`ot_reg` so the constant stays computable). -/
def cfgMask : BPA := ⟨"cosine", 1, 10, false, true, true, 1000⟩

/-- A concrete valid configuration with `mask_diag = false`. -/
def cfgNoMask : BPA := ⟨"cosine", 1, 10, false, false, true, 1000⟩

/-- A concrete valid configuration with the euclidean metric. -/
def cfgEuclid : BPA := ⟨"euclidean", 1, 10, false, true, true, 1000⟩

/-- A concrete non-square 2 x 3 integer matrix. -/
def M23 : Fin 2 → Fin 3 → ℤ := fun i j => 10 * (i : ℤ) + (j : ℤ)

/-- A concrete batched 1 x 2 x 3 integer tensor with non-square trailing shape. -/
def M123 : Fin 1 → Fin 2 → Fin 3 → ℤ := fun _ => M23

/-- A concrete batched square 1 x 2 x 2 integer tensor. -/
def M122 : Fin 1 → Fin 2 → Fin 2 → ℤ := fun _ i j => 10 * (i : ℤ) + (j : ℤ)

/-- A concrete one-item real feature matrix. -/
def xOne : Fin 1 → Fin 1 → ℝ := fun _ _ => 0

/-- A concrete batched one-item real feature tensor. -/
def xbOne : Fin 1 → Fin 1 → Fin 1 → ℝ := fun _ _ _ => 0

/-- A concrete two-item real feature matrix. -/
def xTwo : Fin 2 → Fin 1 → ℝ := fun i _ => (i : ℝ)

/-- A concrete batched two-item real feature tensor. -/
def xbTwo : Fin 1 → Fin 2 → Fin 1 → ℝ := fun _ i _ => (i : ℝ)

/-- A one-cell heap holding a 2-D feature tensor. -/
noncomputable def storeOne : List DTensor := [DTensor.ofFun xOne]

/-- A one-cell heap holding a 3-D feature tensor. -/
noncomputable def storeOne3 : List DTensor3 := [DTensor3.ofFun xbOne]

/-! Helper lemmas. -/

theorem le_matMax (M : Fin (m + 1) → Fin (p + 1) → ℝ) (i : Fin (m + 1))
    (j : Fin (p + 1)) : M i j ≤ matMax M :=
  Finset.le_sup' (fun q : Fin (m + 1) × Fin (p + 1) => M q.1 q.2)
    (Finset.mem_univ (i, j))

theorem matMax_le {a : ℝ} (M : Fin (m + 1) → Fin (p + 1) → ℝ)
    (h : ∀ i j, M i j ≤ a) : matMax M ≤ a :=
  Finset.sup'_le (Finset.univ_nonempty.product Finset.univ_nonempty)
    (fun q : Fin (m + 1) × Fin (p + 1) => M q.1 q.2) fun q _ => h q.1 q.2

theorem exists_matMax (M : Fin (m + 1) → Fin (p + 1) → ℝ) :
    ∃ i j, matMax M = M i j := by
  obtain ⟨q, -, hq⟩ := Finset.exists_mem_eq_sup'
    (Finset.univ_nonempty.product Finset.univ_nonempty)
    (fun q : Fin (m + 1) × Fin (p + 1) => M q.1 q.2)
  exact ⟨q.1, q.2, hq⟩

theorem le_tensMax (M : Fin (b + 1) → Fin (m + 1) → Fin (p + 1) → ℝ)
    (k : Fin (b + 1)) (i : Fin (m + 1)) (j : Fin (p + 1)) :
    M k i j ≤ tensMax M :=
  Finset.le_sup'
    (fun q : Fin (b + 1) × Fin (m + 1) × Fin (p + 1) => M q.1 q.2.1 q.2.2)
    (Finset.mem_univ (k, i, j))

theorem cdist_nonneg (x : Fin n → Fin d → ℝ) (y : Fin m → Fin d → ℝ)
    (i : Fin n) (j : Fin m) : 0 ≤ torch.cdist x y i j :=
  Real.sqrt_nonneg _

theorem cdist_self_symm (x : Fin n → Fin d → ℝ) (i j : Fin n) :
    torch.cdist x x i j = torch.cdist x x j i := by
  unfold torch.cdist
  congr 1
  exact Finset.sum_congr rfl fun _ _ => by ring

theorem normalize_inner_symm (x : Fin n → Fin d → ℝ) (i j : Fin n) :
    ∑ l, F.normalize x i l * F.normalize x j l
      = ∑ l, F.normalize x j l * F.normalize x i l :=
  Finset.sum_congr rfl fun _ _ => mul_comm _ _

theorem abs_sum_mul_le_sqrt (f g : Fin d → ℝ) :
    |∑ k, f k * g k| ≤ Real.sqrt (∑ k, f k ^ 2) * Real.sqrt (∑ k, g k ^ 2) := by
  rw [abs_le]
  refine ⟨?_, Real.sum_mul_le_sqrt_mul_sqrt Finset.univ f g⟩
  have h := Real.sum_mul_le_sqrt_mul_sqrt Finset.univ (fun k => -f k) g
  simp only [neg_mul, Finset.sum_neg_distrib, neg_sq] at h
  linarith

theorem normalize_inner_abs_le_one (x : Fin n → Fin d → ℝ) (i j : Fin n) :
    |∑ k, F.normalize x i k * F.normalize x j k| ≤ 1 := by
  have hab : (0 : ℝ) ≤ Real.sqrt (∑ l, x i l ^ 2) * Real.sqrt (∑ l, x j l ^ 2) :=
    mul_nonneg (Real.sqrt_nonneg _) (Real.sqrt_nonneg _)
  have hrw : ∑ k, F.normalize x i k * F.normalize x j k
      = (∑ k, x i k * x j k)
        / (Real.sqrt (∑ l, x i l ^ 2) * Real.sqrt (∑ l, x j l ^ 2)) := by
    rw [Finset.sum_div]
    refine Finset.sum_congr rfl fun k _ => ?_
    unfold F.normalize
    rw [div_mul_div_comm]
  rw [hrw, abs_div, abs_of_nonneg hab]
  exact div_le_one_of_le₀ (abs_sum_mul_le_sqrt _ _) hab

theorem euclid_cost_bounds (cfg : BPA) (hm : cfg.distance_metric = "euclidean")
    (x : Fin (n + 1) → Fin d → ℝ) (i j : Fin (n + 1)) :
    0 ≤ cfg.compute_cost_matrix x i j ∧ cfg.compute_cost_matrix x i j ≤ 1 := by
  have hnn : 0 ≤ matMax (torch.cdist x x) :=
    le_trans (cdist_nonneg x x i j) (le_matMax _ i j)
  have hrw : cfg.compute_cost_matrix x i j
      = torch.cdist x x i j / matMax (torch.cdist x x) := by
    unfold BPA.compute_cost_matrix
    rw [if_pos hm]
  rw [hrw]
  exact ⟨div_nonneg (cdist_nonneg x x i j) hnn,
    div_le_one_of_le₀ (le_matMax _ i j) hnn⟩

theorem euclid_costB_bounds (cfg : BPA) (hm : cfg.distance_metric = "euclidean")
    (xb : Fin (b + 1) → Fin (n + 1) → Fin d → ℝ) (k : Fin (b + 1))
    (i j : Fin (n + 1)) :
    0 ≤ cfg.compute_cost_matrixB xb k i j ∧ cfg.compute_cost_matrixB xb k i j ≤ 1 := by
  have hd : 0 ≤ torch.cdistB xb xb k i j := cdist_nonneg (xb k) (xb k) i j
  have hnn : 0 ≤ tensMax (torch.cdistB xb xb) :=
    le_trans hd (le_tensMax _ k i j)
  have hrw : cfg.compute_cost_matrixB xb k i j
      = torch.cdistB xb xb k i j / tensMax (torch.cdistB xb xb) := by
    unfold BPA.compute_cost_matrixB
    rw [if_pos hm]
  rw [hrw]
  exact ⟨div_nonneg hd hnn, div_le_one_of_le₀ (le_tensMax _ k i j) hnn⟩

theorem cosine_cost_bounds (cfg : BPA) (hm : cfg.distance_metric = "cosine")
    (x : Fin n → Fin d → ℝ) (i j : Fin n) :
    0 ≤ cfg.compute_cost_matrix x i j ∧ cfg.compute_cost_matrix x i j ≤ 2 := by
  have h := abs_le.1 (normalize_inner_abs_le_one x i j)
  have hrw : cfg.compute_cost_matrix x i j
      = 1 - ∑ k, F.normalize x i k * F.normalize x j k := by
    unfold BPA.compute_cost_matrix
    rw [hm]
    rw [if_neg (by decide), if_pos rfl]
  rw [hrw]
  constructor <;> linarith [h.1, h.2]

theorem cosine_costB_bounds (cfg : BPA) (hm : cfg.distance_metric = "cosine")
    (xb : Fin b → Fin n → Fin d → ℝ) (k : Fin b) (i j : Fin n) :
    0 ≤ cfg.compute_cost_matrixB xb k i j ∧ cfg.compute_cost_matrixB xb k i j ≤ 2 := by
  have h := abs_le.1 (normalize_inner_abs_le_one (xb k) i j)
  have hrw : cfg.compute_cost_matrixB xb k i j
      = 1 - ∑ l, F.normalize (xb k) i l * F.normalize (xb k) j l := by
    unfold BPA.compute_cost_matrixB F.normalizeB
    rw [hm]
    rw [if_neg (by decide), if_pos rfl]
  rw [hrw]
  constructor <;> linarith [h.1, h.2]

theorem cost_le_two (cfg : BPA) (x : Fin (n + 1) → Fin d → ℝ) (i j : Fin (n + 1)) :
    cfg.compute_cost_matrix x i j ≤ 2 := by
  by_cases he : cfg.distance_metric = "euclidean"
  · linarith [(euclid_cost_bounds cfg he x i j).2]
  · by_cases hc : cfg.distance_metric = "cosine"
    · exact (cosine_cost_bounds cfg hc x i j).2
    · unfold BPA.compute_cost_matrix
      rw [if_neg he, if_neg hc]
      norm_num

theorem costB_le_two (cfg : BPA) (xb : Fin (b + 1) → Fin (n + 1) → Fin d → ℝ)
    (k : Fin (b + 1)) (i j : Fin (n + 1)) :
    cfg.compute_cost_matrixB xb k i j ≤ 2 := by
  by_cases he : cfg.distance_metric = "euclidean"
  · linarith [(euclid_costB_bounds cfg he xb k i j).2]
  · by_cases hc : cfg.distance_metric = "cosine"
    · exact (cosine_costB_bounds cfg hc xb k i j).2
    · unfold BPA.compute_cost_matrixB
      rw [if_neg he, if_neg hc]
      norm_num

theorem sigmoid_pos (z : ℝ) : 0 < torch.sigmoid z := by
  unfold torch.sigmoid
  positivity

theorem plan_pos (cfg : BPA) (x : Fin n → Fin d → ℝ) (i j : Fin n) :
    0 < cfg.plan x i j := by
  unfold BPA.plan
  by_cases hs : cfg.sigmoid = true
  · simp only [hs, ite_true]
    exact sigmoid_pos _
  · simp only [hs, ite_false]
    exact Real.exp_pos _

theorem planB_pos (cfg : BPA) (xb : Fin b → Fin n → Fin d → ℝ) (k : Fin b)
    (i j : Fin n) : 0 < cfg.planB xb k i j := by
  unfold BPA.planB
  by_cases hs : cfg.sigmoid = true
  · simp only [hs, ite_true]
    exact sigmoid_pos _
  · simp only [hs, ite_false]
    exact Real.exp_pos _

theorem scale_by_matMax (M : Fin (n + 1) → Fin (p + 1) → ℝ)
    (hpos : ∀ i j, 0 < M i j) (i : Fin (n + 1)) (j : Fin (p + 1)) :
    0 ≤ M i j / matMax M ∧ M i j / matMax M ≤ 1
      ∧ matMax (fun a c => M a c / matMax M) = 1 := by
  have hmx : 0 < matMax M := lt_of_lt_of_le (hpos i j) (le_matMax M i j)
  refine ⟨div_nonneg (le_of_lt (hpos i j)) (le_of_lt hmx),
          div_le_one_of_le₀ (le_matMax M i j) (le_of_lt hmx), ?_⟩
  obtain ⟨a, c, hac⟩ := exists_matMax M
  apply le_antisymm
  · exact matMax_le _ fun a' c' =>
      div_le_one_of_le₀ (le_matMax M a' c') (le_of_lt hmx)
  · have h1 : M a c / matMax M = 1 := by
      rw [← hac]
      exact div_self (ne_of_gt hmx)
    have h2 := le_matMax (fun a' c' => M a' c' / matMax M) a c
    simp only at h2
    rw [h1] at h2
    exact h2

theorem getD_of_prefix {γ : Type*} (s s2 : List γ) (r : ℕ) (dflt : γ)
    (hr : r < s.length) (hpre : ∀ i, i < s.length → s2[i]? = s[i]?) :
    s2.getD r dflt = s.getD r dflt := by
  rw [List.getD_eq_getElem?_getD, hpre r hr, ← List.getD_eq_getElem?_getD]

theorem frame_grow5 {γ : Type*} (s : List γ) (r : ℕ) (hr : r < s.length)
    (t1 t2 t3 t4 t5 t6 : γ) (dflt : γ) :
    ((((((s ++ [t1]).set s.length t2) ++ [t3]) ++ [t4]) ++ [t5]).set
        (((((s ++ [t1]).set s.length t2) ++ [t3]) ++ [t4]).length) t6).getD r dflt
      = s.getD r dflt := by
  refine getD_of_prefix s _ r dflt hr fun i hi => ?_
  rw [List.getElem?_set_ne (by simp; omega)]
  rw [List.getElem?_append_left (by simp; omega)]
  rw [List.getElem?_append_left (by simp; omega)]
  rw [List.getElem?_append_left (by simp; omega)]
  rw [List.getElem?_set_ne (by omega)]
  rw [List.getElem?_append_left (by omega)]

theorem frame_grow4 {γ : Type*} (s : List γ) (r : ℕ) (hr : r < s.length)
    (t1 t2 t3 t4 t6 : γ) (dflt : γ) :
    (((((s ++ [t1]).set s.length t2) ++ [t3]) ++ [t4]).set
        ((((s ++ [t1]).set s.length t2) ++ [t3]).length) t6).getD r dflt
      = s.getD r dflt := by
  refine getD_of_prefix s _ r dflt hr fun i hi => ?_
  rw [List.getElem?_set_ne (by simp; omega)]
  rw [List.getElem?_append_left (by simp; omega)]
  rw [List.getElem?_append_left (by simp; omega)]
  rw [List.getElem?_set_ne (by omega)]
  rw [List.getElem?_append_left (by omega)]

/-! The claims. -/

/-- C1 counterexample: constructing with `ot_reg = 0` (all other parameters at
their defaults) does not fail — the constructor's assert never inspects
`ot_reg`, so construction succeeds and stores `ot_reg = 0`. -/
theorem init_accepts_zero_ot_reg :
    BPA.init "cosine" 0 10 false true true
      = Except.ok ⟨"cosine", 0, 10, false, true, true, 1000⟩ := by
  rfl

/-- C1 (amended): construction succeeds exactly when the lowercased metric is
supported and `sinkhorn_iterations` is positive; the success condition is
independent of `ot_reg`, so a non-positive `ot_reg` is accepted at
construction time rather than rejected. -/
theorem init_isOk_iff_metric_and_iterations (met : String) (reg : ℝ) (it : ℤ)
    (s md ms : Bool) :
    (BPA.init met reg it s md ms).isOk = true
      ↔ lower met ∈ supported_distances ∧ 0 < it := by
  by_cases h : lower met ∈ supported_distances ∧ 0 < it
  · simp [BPA.init, h, Except.isOk, Except.toBool]
  · simp [BPA.init, h, Except.isOk, Except.toBool]

/-- C2: with `mask_diag = true`, every diagonal entry of the output of
`forward` equals exactly 1, on unbatched and batched input, for every metric
and every setting of the `sigmoid` and `max_scale` flags (the final
`mask_diagonal(x_bpa, value=1)` overwrites the diagonal last). -/
theorem forward_diagonal_eq_one (cfg : BPA) (hmd : cfg.mask_diag = true)
    (x : Fin n → Fin d → ℝ) (i : Fin n)
    (xb : Fin b → Fin n → Fin d → ℝ) (k : Fin b) :
    cfg.forward x i i = 1 ∧ cfg.forwardB xb k i i = 1 := by
  constructor
  · simp [BPA.forward, BPA.mask_diagonal, hmd]
  · simp [BPA.forwardB, BPA.mask_diagonalB, hmd]

/-- C2 witness: the default configuration at a concrete one-item input. -/
theorem forward_diagonal_eq_one_witness :
    cfgMask.mask_diag = true ∧
    (cfgMask.forward xOne 0 0 = 1 ∧ cfgMask.forwardB xbOne 0 0 0 = 1) :=
  ⟨rfl, forward_diagonal_eq_one cfgMask rfl xOne 0 xbOne 0⟩

/-- C5: when `mask_diag` is false, `mask_diagonal` is the identity: the input
comes back entrywise unchanged in the 2-D branch, in the batched square
branch, and (error-free) in the batched general-shape branch. -/
theorem mask_diagonal_identity_of_mask_diag_false (cfg : BPA)
    (hmd : cfg.mask_diag = false) (M : Fin m → Fin p → α) (value : α)
    (Msq : Fin b → Fin m → Fin m → α) (M3 : Fin b → Fin m → Fin p → α) :
    cfg.mask_diagonal M value = M ∧
    cfg.mask_diagonalB Msq value = Msq ∧
    cfg.mask_diagonalBE M3 value = Except.ok M3 := by
  refine ⟨?_, ?_, ?_⟩ <;>
    simp [BPA.mask_diagonal, BPA.mask_diagonalB, BPA.mask_diagonalBE, hmd]

/-- C5 witness: a masking-disabled configuration at concrete integer tensors. -/
theorem mask_diagonal_identity_witness :
    cfgNoMask.mask_diag = false ∧
    (cfgNoMask.mask_diagonal M23 (7 : ℤ) = M23 ∧
     cfgNoMask.mask_diagonalB M122 (7 : ℤ) = M122 ∧
     cfgNoMask.mask_diagonalBE M123 (7 : ℤ) = Except.ok M123) :=
  ⟨rfl, mask_diagonal_identity_of_mask_diag_false cfgNoMask rfl M23 7 M122 M123⟩

/-- C6: the cost matrix is symmetric in its last two indices for every stored
metric, on unbatched and batched input (euclidean: the distance is symmetric
and the global divisor is shared; cosine: the inner product commutes). -/
theorem cost_matrix_symmetric (cfg : BPA) (x : Fin n → Fin d → ℝ) (i j : Fin n)
    (xb : Fin b → Fin n → Fin d → ℝ) (k : Fin b) :
    cfg.compute_cost_matrix x i j = cfg.compute_cost_matrix x j i ∧
    cfg.compute_cost_matrixB xb k i j = cfg.compute_cost_matrixB xb k j i := by
  constructor
  · by_cases he : cfg.distance_metric = "euclidean"
    · have h1 : ∀ a c, cfg.compute_cost_matrix x a c
          = torch.cdist x x a c / matMax (torch.cdist x x) := fun a c => by
        unfold BPA.compute_cost_matrix
        rw [if_pos he]
      rw [h1, h1, cdist_self_symm]
    · by_cases hc : cfg.distance_metric = "cosine"
      · have h1 : ∀ a c, cfg.compute_cost_matrix x a c
            = 1 - ∑ l, F.normalize x a l * F.normalize x c l := fun a c => by
          unfold BPA.compute_cost_matrix
          rw [if_neg he, if_pos hc]
        rw [h1, h1, normalize_inner_symm]
      · have h1 : ∀ a c, cfg.compute_cost_matrix x a c = 0 := fun a c => by
          unfold BPA.compute_cost_matrix
          rw [if_neg he, if_neg hc]
        rw [h1, h1]
  · by_cases he : cfg.distance_metric = "euclidean"
    · have h1 : ∀ a c, cfg.compute_cost_matrixB xb k a c
          = torch.cdistB xb xb k a c / tensMax (torch.cdistB xb xb) := fun a c => by
        unfold BPA.compute_cost_matrixB
        rw [if_pos he]
      have h2 : torch.cdistB xb xb k i j = torch.cdistB xb xb k j i :=
        cdist_self_symm (xb k) i j
      rw [h1, h1, h2]
    · by_cases hc : cfg.distance_metric = "cosine"
      · have h1 : ∀ a c, cfg.compute_cost_matrixB xb k a c
            = 1 - ∑ l, F.normalizeB xb k a l * F.normalizeB xb k c l := fun a c => by
          unfold BPA.compute_cost_matrixB
          rw [if_neg he, if_pos hc]
        have h2 : ∑ l, F.normalizeB xb k i l * F.normalizeB xb k j l
            = ∑ l, F.normalizeB xb k j l * F.normalizeB xb k i l :=
          normalize_inner_symm (xb k) i j
        rw [h1, h1, h2]
      · have h1 : ∀ a c, cfg.compute_cost_matrixB xb k a c = 0 := fun a c => by
          unfold BPA.compute_cost_matrixB
          rw [if_neg he, if_neg hc]
        rw [h1, h1]

/-- C10: metric matching is case-insensitive — whenever the argument lowers to
a supported name (and the iteration count is positive), construction succeeds,
produces exactly the object the lowercase spelling would produce, and stores
the lowercased metric. -/
theorem init_metric_case_insensitive (met : String) (reg : ℝ) (it : ℤ)
    (s md ms : Bool)
    (hmet : lower met = "cosine" ∨ lower met = "euclidean")
    (hit : 0 < it) :
    BPA.init met reg it s md ms = BPA.init (lower met) reg it s md ms ∧
    BPA.init met reg it s md ms
      = Except.ok ⟨lower met, reg, it, s, md, ms, 1000⟩ := by
  have hlow : lower (lower met) = lower met := by
    rcases hmet with h | h <;> rw [h] <;> decide
  have hmem : lower met ∈ supported_distances := by
    rcases hmet with h | h <;> rw [h] <;> simp [supported_distances]
  constructor
  · unfold BPA.init
    rw [hlow]
  · unfold BPA.init
    rw [if_pos ⟨hmem, hit⟩]

/-- C10 witness: the mixed-case spelling "Cosine" at concrete parameters. -/
theorem init_metric_case_insensitive_witness :
    (lower "Cosine" = "cosine" ∨ lower "Cosine" = "euclidean") ∧
    (0 : ℤ) < 10 ∧
    (BPA.init "Cosine" 1 10 false true true
        = BPA.init (lower "Cosine") 1 10 false true true ∧
     BPA.init "Cosine" 1 10 false true true
        = Except.ok ⟨lower "Cosine", 1, 10, false, true, true, 1000⟩) :=
  ⟨Or.inl (by decide), by decide,
   init_metric_case_insensitive "Cosine" 1 10 false true true
     (Or.inl (by decide)) (by decide)⟩

/-- C3: the euclidean cost matrix is the pairwise-L2-distance matrix divided
by the single greatest distance taken jointly over the whole tensor — for a
batched input the divisor `tensMax` ranges over the batch axis too, so it is
not a per-batch-element maximum — and every entry lies in `[0, 1]`. -/
theorem euclidean_cost_globally_normalized (cfg : BPA)
    (hm : cfg.distance_metric = "euclidean")
    (x : Fin (n + 1) → Fin d → ℝ) (i j : Fin (n + 1))
    (xb : Fin (b + 1) → Fin (n + 1) → Fin d → ℝ) (k : Fin (b + 1)) :
    (cfg.compute_cost_matrix x i j
        = torch.cdist x x i j / matMax (torch.cdist x x)
      ∧ 0 ≤ cfg.compute_cost_matrix x i j ∧ cfg.compute_cost_matrix x i j ≤ 1)
    ∧ (cfg.compute_cost_matrixB xb k i j
        = torch.cdistB xb xb k i j / tensMax (torch.cdistB xb xb)
      ∧ 0 ≤ cfg.compute_cost_matrixB xb k i j
      ∧ cfg.compute_cost_matrixB xb k i j ≤ 1) := by
  refine ⟨⟨?_, euclid_cost_bounds cfg hm x i j⟩,
          ⟨?_, euclid_costB_bounds cfg hm xb k i j⟩⟩
  · unfold BPA.compute_cost_matrix
    rw [if_pos hm]
  · unfold BPA.compute_cost_matrixB
    rw [if_pos hm]

/-- C3 witness: the euclidean configuration at concrete one-item inputs. -/
theorem euclidean_cost_globally_normalized_witness :
    cfgEuclid.distance_metric = "euclidean" ∧
    ((cfgEuclid.compute_cost_matrix xOne 0 0
        = torch.cdist xOne xOne 0 0 / matMax (torch.cdist xOne xOne)
      ∧ 0 ≤ cfgEuclid.compute_cost_matrix xOne 0 0
      ∧ cfgEuclid.compute_cost_matrix xOne 0 0 ≤ 1)
    ∧ (cfgEuclid.compute_cost_matrixB xbOne 0 0 0
        = torch.cdistB xbOne xbOne 0 0 0 / tensMax (torch.cdistB xbOne xbOne)
      ∧ 0 ≤ cfgEuclid.compute_cost_matrixB xbOne 0 0 0
      ∧ cfgEuclid.compute_cost_matrixB xbOne 0 0 0 ≤ 1)) :=
  ⟨rfl, euclidean_cost_globally_normalized cfgEuclid rfl xOne 0 0 xbOne 0⟩

/-- C4: with `max_scale = true` the range normalization divides, before the
final diagonal fix-up, by the global maximum on an unbatched input and by the
per-batch-element maximum on a batched input; the rescaled entries lie in
`[0, 1]` and the relevant maximum entry equals exactly 1 (the entries are
strictly positive, being `exp` or `sigmoid` values, so the divisor is never
zero). -/
theorem max_scale_range_normalization (cfg : BPA) (hms : cfg.max_scale = true)
    (x : Fin (n + 1) → Fin d → ℝ) (i j : Fin (n + 1))
    (xb : Fin (b + 1) → Fin (n + 1) → Fin d → ℝ) (k : Fin (b + 1)) :
    (cfg.scaled x i j = cfg.plan x i j / matMax (cfg.plan x)
      ∧ 0 ≤ cfg.scaled x i j ∧ cfg.scaled x i j ≤ 1
      ∧ matMax (cfg.scaled x) = 1)
    ∧ (cfg.scaledB xb k i j = cfg.planB xb k i j / matMax (cfg.planB xb k)
      ∧ 0 ≤ cfg.scaledB xb k i j ∧ cfg.scaledB xb k i j ≤ 1
      ∧ matMax (cfg.scaledB xb k) = 1) := by
  have hu : cfg.scaled x = fun a c => cfg.plan x a c / matMax (cfg.plan x) := by
    unfold BPA.scaled
    rw [if_pos hms]
  have hub : cfg.scaledB xb k
      = fun a c => cfg.planB xb k a c / matMax (cfg.planB xb k) := by
    unfold BPA.scaledB
    rw [if_pos hms]
  have h1 := scale_by_matMax (cfg.plan x) (plan_pos cfg x) i j
  have h2 := scale_by_matMax (cfg.planB xb k) (planB_pos cfg xb k) i j
  constructor
  · refine ⟨by rw [hu], ?_, ?_, ?_⟩
    · rw [hu]; exact h1.1
    · rw [hu]; exact h1.2.1
    · rw [hu]; exact h1.2.2
  · refine ⟨by rw [hub], ?_, ?_, ?_⟩
    · rw [hub]; exact h2.1
    · rw [hub]; exact h2.2.1
    · rw [hub]; exact h2.2.2

/-- C4 witness: the default configuration at concrete one-item inputs. -/
theorem max_scale_range_normalization_witness :
    cfgMask.max_scale = true ∧
    ((cfgMask.scaled xOne 0 0 = cfgMask.plan xOne 0 0 / matMax (cfgMask.plan xOne)
      ∧ 0 ≤ cfgMask.scaled xOne 0 0 ∧ cfgMask.scaled xOne 0 0 ≤ 1
      ∧ matMax (cfgMask.scaled xOne) = 1)
    ∧ (cfgMask.scaledB xbOne 0 0 0
        = cfgMask.planB xbOne 0 0 0 / matMax (cfgMask.planB xbOne 0)
      ∧ 0 ≤ cfgMask.scaledB xbOne 0 0 0 ∧ cfgMask.scaledB xbOne 0 0 0 ≤ 1
      ∧ matMax (cfgMask.scaledB xbOne 0) = 1)) :=
  ⟨rfl, max_scale_range_normalization cfgMask rfl xOne 0 0 xbOne 0⟩

/-- C7: with `mask_diag = true` and the stored `diagonal_val = 1000`, every
diagonal entry of the pre-solve masked cost matrix equals 1000, which is
strictly greater than every off-diagonal entry; off-diagonal entries are the
raw costs, bounded by 2 for the cosine metric and by 1 for the euclidean
metric. -/
theorem masked_cost_diagonal_dominates (cfg : BPA) (hmd : cfg.mask_diag = true)
    (hdv : cfg.diagonal_val = 1000)
    (x : Fin (n + 1) → Fin d → ℝ) (i j : Fin (n + 1)) (hij : i ≠ j)
    (xb : Fin (b + 1) → Fin (n + 1) → Fin d → ℝ) (k : Fin (b + 1)) :
    (cfg.masked_cost x i i = 1000 ∧ cfg.masked_costB xb k i i = 1000)
    ∧ (cfg.masked_cost x i j < 1000 ∧ cfg.masked_costB xb k i j < 1000)
    ∧ (cfg.distance_metric = "cosine" →
        cfg.masked_cost x i j ≤ 2 ∧ cfg.masked_costB xb k i j ≤ 2)
    ∧ (cfg.distance_metric = "euclidean" →
        cfg.masked_cost x i j ≤ 1 ∧ cfg.masked_costB xb k i j ≤ 1) := by
  have hvij : ¬((i : ℕ) = (j : ℕ)) := fun hv => hij (Fin.ext hv)
  have hdiag : cfg.masked_cost x i i = cfg.diagonal_val := by
    unfold BPA.masked_cost BPA.mask_diagonal
    simp [hmd]
  have hdiagB : cfg.masked_costB xb k i i = cfg.diagonal_val := by
    unfold BPA.masked_costB BPA.mask_diagonalB
    simp [hmd]
  have hoff : cfg.masked_cost x i j = cfg.compute_cost_matrix x i j := by
    unfold BPA.masked_cost BPA.mask_diagonal
    simp [hmd, hvij]
  have hoffB : cfg.masked_costB xb k i j = cfg.compute_cost_matrixB xb k i j := by
    unfold BPA.masked_costB BPA.mask_diagonalB
    simp [hmd, hvij]
  refine ⟨⟨by rw [hdiag, hdv], by rw [hdiagB, hdv]⟩, ⟨?_, ?_⟩, ?_, ?_⟩
  · rw [hoff]
    linarith [cost_le_two cfg x i j]
  · rw [hoffB]
    linarith [costB_le_two cfg xb k i j]
  · intro hc
    rw [hoff, hoffB]
    exact ⟨(cosine_cost_bounds cfg hc x i j).2, (cosine_costB_bounds cfg hc xb k i j).2⟩
  · intro he
    rw [hoff, hoffB]
    exact ⟨(euclid_cost_bounds cfg he x i j).2, (euclid_costB_bounds cfg he xb k i j).2⟩

/-- C7 witness: the default configuration at concrete two-item inputs. -/
theorem masked_cost_diagonal_dominates_witness :
    cfgMask.mask_diag = true ∧ cfgMask.diagonal_val = 1000 ∧
    (0 : Fin 2) ≠ 1 ∧
    ((cfgMask.masked_cost xTwo 0 0 = 1000
        ∧ cfgMask.masked_costB xbTwo 0 0 0 = 1000)
    ∧ (cfgMask.masked_cost xTwo 0 1 < 1000
        ∧ cfgMask.masked_costB xbTwo 0 0 1 < 1000)
    ∧ (cfgMask.distance_metric = "cosine" →
        cfgMask.masked_cost xTwo 0 1 ≤ 2 ∧ cfgMask.masked_costB xbTwo 0 0 1 ≤ 2)
    ∧ (cfgMask.distance_metric = "euclidean" →
        cfgMask.masked_cost xTwo 0 1 ≤ 1
          ∧ cfgMask.masked_costB xbTwo 0 0 1 ≤ 1)) :=
  ⟨rfl, rfl, by decide,
   masked_cost_diagonal_dominates cfgMask rfl rfl xTwo 0 1 (by decide) xbTwo 0⟩

/-- C8 counterexample: `mask_diagonal` on a concrete non-square 2-D input
(shape 2 x 3, `mask_diag = true`) does not fail at all — `fill_diagonal_`
accepts it and fills the main diagonal of length `min(2, 3) = 2`, leaving the
other entries intact, where the claim requires a `ShapeError`. -/
theorem mask_diagonal_nonsquare_2d_succeeds :
    cfgMask.mask_diagonal M23 (5 : ℤ) 0 0 = 5 ∧
    cfgMask.mask_diagonal M23 (5 : ℤ) 1 1 = 5 ∧
    cfgMask.mask_diagonal M23 (5 : ℤ) 0 1 = 1 ∧
    cfgMask.mask_diagonal M23 (5 : ℤ) 0 2 = 2 ∧
    cfgMask.mask_diagonal M23 (5 : ℤ) 1 0 = 10 ∧
    cfgMask.mask_diagonal M23 (5 : ℤ) 1 2 = 12 := by
  decide

/-- C8 (amended): `mask_diagonal` itself validates nothing.  With
`mask_diag = true`, a 2-D input of any trailing shape succeeds, filling the
cells with equal row and column index; a batched (rank > 2) input fails if
and only if its trailing dimension differs from its middle dimension, because
the boolean eye-mask assignment rejects the shape mismatch.  (With
`mask_diag = false` no shape is ever checked.) -/
theorem mask_diagonal_shape_check (cfg : BPA) (hmd : cfg.mask_diag = true)
    (M : Fin m → Fin p → α) (value : α) (M3 : Fin b → Fin m → Fin p → α) :
    cfg.mask_diagonal M value
        = (fun (i : Fin m) (j : Fin p) => if (i : ℕ) = (j : ℕ) then value else M i j)
    ∧ ((cfg.mask_diagonalBE M3 value).isOk = true ↔ p = m) := by
  constructor
  · simp [BPA.mask_diagonal, hmd]
  · unfold BPA.mask_diagonalBE
    by_cases hpm : p = m
    · simp [hmd, hpm, Except.isOk, Except.toBool]
    · simp [hmd, hpm, Except.isOk, Except.toBool]

/-- C8 witness: concrete integer tensors of trailing shape 2 x 3. -/
theorem mask_diagonal_shape_check_witness :
    cfgMask.mask_diag = true ∧
    (cfgMask.mask_diagonal M23 (5 : ℤ)
        = (fun (i : Fin 2) (j : Fin 3) =>
            if (i : ℕ) = (j : ℕ) then (5 : ℤ) else M23 i j)
     ∧ ((cfgMask.mask_diagonalBE M123 (5 : ℤ)).isOk = true ↔ (3 : ℕ) = 2)) :=
  ⟨rfl, mask_diagonal_shape_check cfgMask rfl M23 5 M123⟩

/-- C9: `forward` never mutates the caller's input tensor.  Replaying the
method over the heap model — where the two `mask_diagonal` steps write in
place through their references and every other step allocates a fresh
tensor — the heap cell holding the input `x` is unchanged after the call,
for unbatched and batched inputs alike. -/
theorem forward_preserves_caller_input (cfg : BPA) (s : List DTensor) (xr : ℕ)
    (h : xr < s.length) (s3 : List DTensor3) (xr3 : ℕ) (h3 : xr3 < s3.length) :
    (cfg.forwardS s xr).1.getD xr DTensor.zero = s.getD xr DTensor.zero ∧
    (cfg.forwardSB s3 xr3).1.getD xr3 DTensor3.zero
      = s3.getD xr3 DTensor3.zero := by
  constructor
  · by_cases hms : cfg.max_scale = true
    · simp only [BPA.forwardS, salloc, swrite, hms, if_true]
      exact frame_grow5 s xr h _ _ _ _ _ _ _
    · simp only [BPA.forwardS, salloc, swrite, hms, if_false]
      exact frame_grow4 s xr h _ _ _ _ _ _
  · by_cases hms : cfg.max_scale = true
    · simp only [BPA.forwardSB, salloc, swrite, hms, if_true]
      exact frame_grow5 s3 xr3 h3 _ _ _ _ _ _ _
    · simp only [BPA.forwardSB, salloc, swrite, hms, if_false]
      exact frame_grow4 s3 xr3 h3 _ _ _ _ _ _

/-- C9 witness: a one-cell heap holding the concrete input tensor. -/
theorem forward_preserves_caller_input_witness :
    0 < storeOne.length ∧ 0 < storeOne3.length ∧
    ((cfgMask.forwardS storeOne 0).1.getD 0 DTensor.zero
        = storeOne.getD 0 DTensor.zero ∧
     (cfgMask.forwardSB storeOne3 0).1.getD 0 DTensor3.zero
        = storeOne3.getD 0 DTensor3.zero) :=
  ⟨by simp [storeOne], by simp [storeOne3],
   forward_preserves_caller_input cfgMask storeOne 0 (by simp [storeOne])
     storeOne3 0 (by simp [storeOne3])⟩

end BPAVerify
